import Mathlib

/-!
# Verification of the pathfinding engine against its specification

Shallow embedding of the transit engine's core functions:
`getServiceId`, `getActiveTrips` (dataManager.js), `findCurrentState`,
`calculateProgress` (tripScheduler.js), `prebuildTransferMap`,
`findItinerary`, `reconstructPath` (localPathfinder.js) and
`calculatePosition` / `interpolateAlongRoute` (busPositionCalculator.js).

Times are integer seconds of the service day (the JS code converts
`HH:MM:SS` strings via `timeToSeconds`; the embedding carries the
converted value).  Geographic quantities are rationals.  Functions
missing from the provided sources (`calculateDistance`,
`findStopsWithinRadius`, `findNearestPointOnRoute`) are taken as
parameters, constrained only where a claim needs it, following the
specification's description of them.
-/

namespace Pathfinding

attribute [local semireducible] Rat.add Rat.sub Rat.mul Rat.inv

/-- A calendar date as the code consumes it: the `YYYYMMDD` value built in
`getServiceId` plus the day-of-week index (`0 = sunday`, as produced by
JavaScript `Date.getDay`).  The code compares the zero-padded 8-character
`YYYYMMDD` strings lexicographically, which coincides with numeric order,
so dates are embedded as naturals. -/
structure GDate where
  dateString : Nat
  dayOfWeek : Fin 7

/-- A row of `calendar.txt`: seven day flags (`days i = true` models the
column for day `i` holding the string `"1"`), and the window bounds as
`YYYYMMDD` numbers (see `GDate`). -/
structure CalendarRule where
  service_id : String
  days : Fin 7 → Bool
  start_date : Nat
  end_date : Nat

/-- A row of `calendar_dates.txt`; the date is a `YYYYMMDD` number and
`exception_type` is the raw string, `"1"` meaning added and `"2"` removed. -/
structure CalendarException where
  service_id : String
  date : Nat
  exception_type : String

/-- The calendar tables held by `DataManager`. -/
structure CalendarDB where
  calendar : List CalendarRule
  calendarDates : List CalendarException

/-- Embeds `DataManager.getServiceId` (dataManager.js lines 325-345):
the first `calendar_dates` row whose date equals the query date decides
(service id when type `"1"`, nothing otherwise); failing that, the first
`calendar` row whose day flag is set and whose window contains the date. -/
def getServiceId (db : CalendarDB) (date : GDate) : Option String :=
  match db.calendarDates.find? (fun d => d.date = date.dateString) with
  | some e => if e.exception_type = "1" then some e.service_id else none
  | none =>
      (db.calendar.find? (fun s =>
        s.days date.dayOfWeek = true ∧
        s.start_date ≤ date.dateString ∧ date.dateString ≤ s.end_date)).map
        (fun s => s.service_id)

/-- Modelled from the spec (Service Calendar, §4.3 / §8): a service is
active on a date iff some exception of type added for it matches the date,
or no exception of type removed for it matches the date and some rule for
it has the date in its window with the day bit set.  This is the
specification's activity predicate, to be compared with `getServiceId`. -/
def specServiceActive (db : CalendarDB) (date : GDate) (sid : String) : Bool :=
  (db.calendarDates.any (fun e =>
      e.service_id = sid ∧ e.date = date.dateString ∧ e.exception_type = "1")) ||
  (!(db.calendarDates.any (fun e =>
      e.service_id = sid ∧ e.date = date.dateString ∧ e.exception_type = "2")) &&
   (db.calendar.any (fun s =>
      s.service_id = sid ∧ s.days date.dayOfWeek = true ∧
      s.start_date ≤ date.dateString ∧ date.dateString ≤ s.end_date)))

/-- A stop as the resolver consumes it (`stops.txt` row, coordinates
already parsed to numbers as `parseFloat` does on valid input). -/
structure Stop where
  stop_id : String
  stop_name : String
  stop_lat : ℚ
  stop_lon : ℚ
deriving DecidableEq

/-- A `stop_times.txt` row; `arrival` and `departure` carry the
`timeToSeconds` conversion of the raw `HH:MM:SS` strings. -/
structure StopTime where
  trip_id : String
  stop_id : String
  stop_sequence : Nat
  arrival : Int
  departure : Int
deriving DecidableEq

/-- A `trips.txt` row. -/
structure Trip where
  trip_id : String
  route_id : String
  service_id : String
  trip_headsign : String
deriving DecidableEq

/-- A `routes.txt` row (the fields downstream code reads). -/
structure Route where
  route_id : String
  route_short_name : String
  route_color : String
  route_text_color : String
deriving DecidableEq

/-- The vehicle state produced by `TripScheduler.findCurrentState`:
either waiting at a stop (the code's `waiting_at_stop`, carrying the stop
and its next departure time) or moving between two stops with a progress
fraction. -/
inductive BusState where
  | waiting (stopInfo : Stop) (nextDepartureTime : Int)
  | moving (fromStopInfo toStopInfo : Stop) (departureTime arrivalTime : Int)
      (progress : ℚ)
deriving DecidableEq

/-- Embeds `TripScheduler.calculateProgress`: returns 0 on a non-positive
duration, otherwise the elapsed fraction clamped into `[0, 1]`. -/
def calculateProgress (departureTime arrivalTime currentTime : Int) : ℚ :=
  let totalDuration := arrivalTime - departureTime
  if totalDuration ≤ 0 then 0
  else max 0 (min 1 (((currentTime - departureTime : Int) : ℚ) / (totalDuration : ℚ)))

/-- The `for (let i = 1; ...)` loop of `TripScheduler.findCurrentState`:
`prev` is `stopTimes[i-1]`, `rest` the remaining `stopTimes[i], ...`.
The waiting test (`arrival < t ≤ departure`) is checked before the moving
test (`prevDeparture < t ≤ arrival`); a missing stop record makes the
function return null, as in the code. -/
def findStateLoop (lookup : String → Option Stop) (prev : StopTime)
    (rest : List StopTime) (t : Int) : Option BusState :=
  match rest with
  | [] => none
  | cur :: tail =>
    if t > cur.arrival ∧ t ≤ cur.departure then
      match lookup cur.stop_id with
      | none => none
      | some s => some (BusState.waiting s cur.departure)
    else if t > prev.departure ∧ t ≤ cur.arrival then
      match lookup prev.stop_id, lookup cur.stop_id with
      | some p, some c =>
          some (BusState.moving p c prev.departure cur.arrival
            (calculateProgress prev.departure cur.arrival t))
      | _, _ => none
    else findStateLoop lookup cur tail t

/-- Embeds `TripScheduler.findCurrentState` (tripScheduler section of the
main source, lines 1200-1268): first the waiting-at-first-stop case
(`first.arrival ≤ t ≤ first.departure`), then the scan over later stops. -/
def findCurrentState (lookup : String → Option Stop)
    (stopTimes : List StopTime) (t : Int) : Option BusState :=
  match stopTimes with
  | [] => none
  | first :: rest =>
    if t ≥ first.arrival ∧ t ≤ first.departure then
      match lookup first.stop_id with
      | none => none
      | some s => some (BusState.waiting s first.departure)
    else findStateLoop lookup first rest t

/-- The indexed feed as `DataManager` holds it after `loadAllData`:
the calendar tables plus the entity lists and the lookup maps the query
functions read (`stopTimesByTrip`, `stopsById`, `stopTimesByStop`,
`routesById`, `masterStops`).  Maps are embedded as functions. -/
structure DataDB where
  cal : CalendarDB
  trips : List Trip
  tripsByTripId : String → Option Trip
  stopTimesByTrip : String → List StopTime
  stopsById : String → Option Stop
  stopTimesByStop : String → List StopTime
  routesById : String → Option Route
  masterStops : List Stop
  isLoaded : Bool

/-- One element of the list `DataManager.getActiveTrips` returns. -/
structure ActiveTrip where
  tripId : String
  trip : Trip
  stopTimes : List StopTime
  route : Option Route
deriving DecidableEq

/-- Embeds `DataManager.getActiveTrips` (dataManager.js lines 350-380):
empty when no service id resolves; otherwise every trip of the active
service with at least two stop times whose window
`[first.departure, last.arrival]` contains the instant. -/
def getActiveTrips (db : DataDB) (currentSeconds : Int) (date : GDate) :
    List ActiveTrip :=
  match getServiceId db.cal date with
  | none => []
  | some serviceId =>
      db.trips.filterMap (fun trip =>
        if trip.service_id = serviceId then
          let stopTimes := db.stopTimesByTrip trip.trip_id
          if stopTimes.length < 2 then none
          else
            match stopTimes.head?, stopTimes.getLast? with
            | some firstStop, some lastStop =>
                if firstStop.departure ≤ currentSeconds ∧
                   currentSeconds ≤ lastStop.arrival then
                  some ⟨trip.trip_id, trip, stopTimes, db.routesById trip.route_id⟩
                else none
            | _, _ => none
        else none)

/-- Embeds `TripScheduler.getActiveTrips`: maps the data manager's active
trips through `findCurrentState`, keeping only those with a state. -/
def schedulerActiveTrips (db : DataDB) (currentSeconds : Int) (date : GDate) :
    List (ActiveTrip × BusState) :=
  if db.isLoaded = false then []
  else
    (getActiveTrips db currentSeconds date).filterMap (fun a =>
      (findCurrentState db.stopsById a.stopTimes currentSeconds).map
        (fun st => (a, st)))

/-- One record of the pathfinder's prebuilt transfer map:
`{ toStopId, walkTime, distance }`. -/
structure TransferRec where
  toStopId : String
  walkTime : Int
  distance : ℚ
deriving DecidableEq

/-- The inner loop of `LocalPathfinder.prebuildTransferMap` for source index
`i`: every other index whose distance is at most `MAX_WALK_METERS = 500`
yields a record with `walkTime = ceil(distance / WALK_SPEED_MPS)` and
`WALK_SPEED_MPS = 1.4`.  The distance function is a parameter
(`calculateDistance` is not among the provided sources). -/
def transfersFor (dist : Stop → Stop → ℚ) (stops : List Stop)
    (i : Fin stops.length) : List TransferRec :=
  (List.finRange stops.length).filterMap (fun j =>
    if i = j then none
    else
      let fromStop := stops.get i
      let toStop := stops.get j
      let distance := dist fromStop toStop
      if distance ≤ 500 then
        some ⟨toStop.stop_id, ⌈distance / (7/5 : ℚ)⌉, distance⟩
      else none)

/-- Embeds `LocalPathfinder.prebuildTransferMap` (lines 534-563): for every
master stop, the list of walkable transfers to the other master stops. -/
def prebuildTransferMap (dist : Stop → Stop → ℚ) (stops : List Stop) :
    List (String × List TransferRec) :=
  (List.finRange stops.length).map (fun i =>
    ((stops.get i).stop_id, transfersFor dist stops i))

/-- Total polyline length: the last entry of the cumulative `distances`
array built by `interpolateAlongRoute`.  Vertices are `(lon, lat)` pairs as
in the GeoJSON; `dist4 lat1 lon1 lat2 lon2` is `calculateDistance`. -/
def totalDistOf (dist4 : ℚ → ℚ → ℚ → ℚ → ℚ) : List (ℚ × ℚ) → ℚ
  | [] => 0
  | [_] => 0
  | p :: q :: tl => dist4 p.2 p.1 q.2 q.1 + totalDistOf dist4 (q :: tl)

/-- The scan of `interpolateAlongRoute` over the cumulative distances:
`p` is `pathSegment[i]` with cumulative distance `dcur`; the first segment
whose `[distances[i], distances[i+1]]` interval contains the target gets
linear interpolation, otherwise the last point is returned.  The result is
`(lat, lon)`. -/
def interpLoop (dist4 : ℚ → ℚ → ℚ → ℚ → ℚ) (target : ℚ) :
    (ℚ × ℚ) → ℚ → List (ℚ × ℚ) → ℚ × ℚ
  | p, _, [] => (p.2, p.1)
  | p, dcur, q :: tl =>
    let dnext := dcur + dist4 p.2 p.1 q.2 q.1
    if dcur ≤ target ∧ target ≤ dnext then
      let segmentDistance := dnext - dcur
      let segmentProgress :=
        if segmentDistance > 0 then (target - dcur) / segmentDistance else 0
      (p.2 + (q.2 - p.2) * segmentProgress, p.1 + (q.1 - p.1) * segmentProgress)
    else interpLoop dist4 target q dnext tl

/-- The `pathSegment` slice of `interpolateAlongRoute`: forward slice when
`fromIndex < toIndex`, reversed slice otherwise
(`slice(start, end + 1)`, resp. `slice(end, start + 1).reverse()`). -/
def pathSliceOf (routeCoordinates : List (ℚ × ℚ)) (fromIndex toIndex : Nat) :
    List (ℚ × ℚ) :=
  if fromIndex < toIndex then
    (routeCoordinates.drop fromIndex).take (toIndex + 1 - fromIndex)
  else
    ((routeCoordinates.drop toIndex).take (fromIndex + 1 - toIndex)).reverse

/-- Embeds `BusPositionCalculator.interpolateAlongRoute` (lines 62-131).
`nearest cs lat lon` stands for `findNearestPointOnRoute` (absent from the
provided sources; per the spec it is the vertex index nearest the point by
great-circle distance).  Returns the interpolated `(lat, lon)`, or `none`
when the segment is degenerate. -/
def interpolateAlongRoute (dist4 : ℚ → ℚ → ℚ → ℚ → ℚ)
    (nearest : List (ℚ × ℚ) → ℚ → ℚ → Option Nat)
    (routeCoordinates : List (ℚ × ℚ))
    (fromLat fromLon toLat toLon progress : ℚ) : Option (ℚ × ℚ) :=
  match nearest routeCoordinates fromLat fromLon,
        nearest routeCoordinates toLat toLon with
  | some fromIndex, some toIndex =>
    if fromIndex = toIndex then none
    else
      match pathSliceOf routeCoordinates fromIndex toIndex with
      | p :: q :: tl =>
        let totalDistance := totalDistOf dist4 (p :: q :: tl)
        if totalDistance = 0 then none
        else some (interpLoop dist4 (totalDistance * progress) p 0 (q :: tl))
      | _ => none
  | _, _ => none

/-- Embeds the moving branch of `BusPositionCalculator.calculatePosition`
(lines 15-57): try the GeoJSON trace when available, otherwise (or when the
trace interpolation yields null) fall back to linear interpolation between
the two stops.  Returns `(lat, lon)`. -/
def calculatePosition (dist4 : ℚ → ℚ → ℚ → ℚ → ℚ)
    (nearest : List (ℚ × ℚ) → ℚ → ℚ → Option Nat)
    (routeGeometry : Option (List (ℚ × ℚ)))
    (fromStop toStop : Stop) (progress : ℚ) : ℚ × ℚ :=
  let linear : ℚ × ℚ :=
    (fromStop.stop_lat + (toStop.stop_lat - fromStop.stop_lat) * progress,
     fromStop.stop_lon + (toStop.stop_lon - fromStop.stop_lon) * progress)
  match routeGeometry with
  | some cs =>
    if 0 < cs.length then
      match interpolateAlongRoute dist4 nearest cs fromStop.stop_lat
          fromStop.stop_lon toStop.stop_lat toStop.stop_lon progress with
      | some position => position
      | none => linear
    else linear
  | none => linear

/-- Modelled from the spec: the 1-metre tolerance of §8 expressed on
coordinate degrees (one degree of latitude ≈ 111 km; the same bound is used
for longitude, adequate for the equality and far-counterexample cases the
claims need). -/
def within1m (p q : ℚ × ℚ) : Prop :=
  |p.1 - q.1| ≤ 1 / 111000 ∧ |p.2 - q.2| ≤ 1 / 111000

/-- A geographic coordinate as the planner passes it around. -/
structure Coord where
  lat : ℚ
  lon : ℚ
deriving DecidableEq

/-- Leg kind: `'WALK'` or `'BUS'`. -/
inductive LegType where
  | walk
  | bus
deriving DecidableEq

/-- A journey leg as `findItinerary` builds it; optional fields mirror the
properties present on the corresponding JS objects. -/
structure Leg where
  type : LegType
  fromCoords : Option Coord := none
  fromStopId : Option String := none
  fromStopName : Option String := none
  toCoords : Option Coord := none
  toStopId : Option String := none
  toStopName : Option String := none
  startTime : Int
  endTime : Int
  duration : Int
  distance : Option ℚ := none
  route : Option Route := none
  tripId : Option String := none
  headsign : Option String := none
deriving DecidableEq

/-- `(minArrivalTime.get(stopId) || Infinity)` as the code writes it:
JavaScript `||` treats the number `0` as falsy, so a stored label of `0`
reads back as `Infinity` (encoded here as `none`). -/
def jsOrInfinity (v : Option Int) : Option Int :=
  match v with
  | some x => if x = 0 then none else some x
  | none => none

/-- `t > v` where `v` may be `Infinity` (`none`); anything is `≤ Infinity`. -/
def gtInf (t : Int) (v : Option Int) : Bool :=
  match v with
  | none => false
  | some x => t > x

/-- `t < v` where `v` may be `Infinity` (`none`); anything is `< Infinity`. -/
def ltInf (t : Int) (v : Option Int) : Bool :=
  match v with
  | none => true
  | some x => t < x

/-- The sorted-insert of the pathfinder's `PriorityQueue.enqueue`: the
element is spliced in before the first entry of strictly greater priority. -/
def pqEnqueue (collection : List (Leg × Int)) (element : Leg × Int) :
    List (Leg × Int) :=
  match collection with
  | [] => [element]
  | x :: xs =>
      if element.2 < x.2 then element :: x :: xs
      else x :: pqEnqueue xs element

/-- Functional update of a map embedded as a function. -/
def mapSet {α : Type} (f : String → Option α) (k : String) (v : α) :
    String → Option α :=
  fun k' => if k' = k then some v else f k'

/-- The per-query search state of `findItinerary`: the priority queue, the
provisional arrival labels, and the back-links `(leg, prevStopId)`. -/
structure SearchState where
  pq : List (Leg × Int)
  minArrival : String → Option Int
  backLink : String → Option (Leg × String)

/-- How an embedded query can abort: a JavaScript `TypeError` on a missing
stop or trip record, a missing back-link during reconstruction, or fuel
exhaustion (the embedding's termination bound, not a behaviour of the
code). -/
inductive PErr where
  | missingStop
  | missingTrip
  | missingBackLink
  | fuelOut
deriving DecidableEq

/-- One candidate of the bus expansion: a later event `nextStopOnTrip` of a
boarded trip.  If the arrival strictly beats `(minArrival || Infinity)` the
label, back-link and queue are updated; the leg construction dereferences
`getStop` on both ends and throws on a missing stop, as the code does. -/
def relaxBusTarget (db : DataDB) (currentStopId : String) (trip : Trip)
    (stEv : StopTime) (depTime : Int) (st : SearchState)
    (nextStopOnTrip : StopTime) : Except PErr SearchState :=
  if stEv.stop_sequence < nextStopOnTrip.stop_sequence then
    let nextStopId := nextStopOnTrip.stop_id
    let nextArrivalTime := nextStopOnTrip.arrival
    if ltInf nextArrivalTime (jsOrInfinity (st.minArrival nextStopId)) then
      match db.stopsById stEv.stop_id, db.stopsById nextStopId with
      | some fromS, some toS =>
        let busLeg : Leg :=
          { type := .bus, fromStopId := some stEv.stop_id,
            fromStopName := some fromS.stop_name,
            toStopId := some nextStopId, toStopName := some toS.stop_name,
            startTime := depTime, endTime := nextArrivalTime,
            duration := nextArrivalTime - depTime,
            route := db.routesById trip.route_id,
            tripId := some trip.trip_id, headsign := some trip.trip_headsign }
        .ok { pq := pqEnqueue st.pq (busLeg, nextArrivalTime),
              minArrival := mapSet st.minArrival nextStopId nextArrivalTime,
              backLink := mapSet st.backLink nextStopId (busLeg, currentStopId) }
      | _, _ => .error .missingStop
    else .ok st
  else .ok st

/-- One departure event at the dequeued stop: look the trip up (a missing
trip record throws), and when the trip runs today and is still boardable,
relax every later stop on it. -/
def relaxDeparture (db : DataDB) (serviceId : String) (currentStopId : String)
    (currentArrivalTime : Int) (st : SearchState) (stEv : StopTime) :
    Except PErr SearchState :=
  match db.tripsByTripId stEv.trip_id with
  | none => .error .missingTrip
  | some trip =>
    let depTime := stEv.departure
    if trip.service_id = serviceId ∧ currentArrivalTime ≤ depTime then
      (db.stopTimesByTrip stEv.trip_id).foldlM
        (relaxBusTarget db currentStopId trip stEv depTime) st
    else .ok st

/-- One prebuilt foot transfer out of the dequeued stop; same accept /
update pattern, with `getStop` dereferenced on both endpoints. -/
def relaxTransfer (db : DataDB) (currentStopId : String)
    (currentArrivalTime : Int) (st : SearchState) (transfer : TransferRec) :
    Except PErr SearchState :=
  let newArrivalTime := currentArrivalTime + transfer.walkTime
  if ltInf newArrivalTime (jsOrInfinity (st.minArrival transfer.toStopId)) then
    match db.stopsById currentStopId, db.stopsById transfer.toStopId with
    | some fromStop, some toStop =>
      let walkLeg : Leg :=
        { type := .walk, fromStopId := some currentStopId,
          fromStopName := some fromStop.stop_name,
          fromCoords := some ⟨fromStop.stop_lat, fromStop.stop_lon⟩,
          toStopId := some transfer.toStopId,
          toStopName := some toStop.stop_name,
          toCoords := some ⟨toStop.stop_lat, toStop.stop_lon⟩,
          startTime := currentArrivalTime, endTime := newArrivalTime,
          duration := transfer.walkTime, distance := some transfer.distance }
      .ok { pq := pqEnqueue st.pq (walkLeg, newArrivalTime),
            minArrival := mapSet st.minArrival transfer.toStopId newArrivalTime,
            backLink := mapSet st.backLink transfer.toStopId
              (walkLeg, currentStopId) }
    | _, _ => .error .missingStop
  else .ok st

/-- The Dijkstra loop of `findItinerary` (lines 632-722): dequeue, skip a
stale entry (`currentArrivalTime > (minArrivalTime.get(...) || Infinity)`),
stop at the first end stop, otherwise run the bus and transfer expansions.
`fuel` bounds the iteration count (the embedding's termination device). -/
def searchLoop (db : DataDB) (transferMap : String → List TransferRec)
    (serviceId : String) (endStopIds : List String) :
    Nat → SearchState → Except PErr (Option (String × SearchState))
  | 0, _ => .error .fuelOut
  | Nat.succ fuel, st =>
    match st.pq with
    | [] => .ok none
    | (currentLeg, currentArrivalTime) :: rest =>
      let st1 : SearchState := { st with pq := rest }
      let currentStopId := currentLeg.toStopId.getD ""
      if gtInf currentArrivalTime (jsOrInfinity (st1.minArrival currentStopId)) then
        searchLoop db transferMap serviceId endStopIds fuel st1
      else if currentStopId ∈ endStopIds then .ok (some (currentStopId, st1))
      else
        match (db.stopTimesByStop currentStopId).foldlM
            (relaxDeparture db serviceId currentStopId currentArrivalTime) st1 with
        | .error e => .error e
        | .ok st2 =>
          match (transferMap currentStopId).foldlM
              (relaxTransfer db currentStopId currentArrivalTime) st2 with
          | .error e => .error e
          | .ok st3 => searchLoop db transferMap serviceId endStopIds fuel st3

/-- The back-link walk of `reconstructPath`: pushes legs until the `START`
sentinel; the accumulator is the final (already reversed) list, so pushing
is consing.  A missing back-link throws; `fuel` guards against cycles. -/
def reconstructWalk (backLink : String → Option (Leg × String)) :
    Nat → (Leg × String) → List Leg → Except PErr (List Leg)
  | 0, _, _ => .error .fuelOut
  | Nat.succ fuel, currentLink, acc =>
    if currentLink.2 = "START" then .ok (currentLink.1 :: acc)
    else
      match backLink currentLink.2 with
      | none => .error .missingBackLink
      | some nextLink => reconstructWalk backLink fuel nextLink
          (currentLink.1 :: acc)

/-- Result of `reconstructPath`: the legs in travel order and
`totalDuration = last.endTime - first.startTime`. -/
structure PathResult where
  legs : List Leg
  totalDuration : Int
deriving DecidableEq

/-- Embeds `LocalPathfinder.reconstructPath` (lines 740-779): append the
egress walk to the destination coordinate, then follow back-links to
`START`. -/
def reconstructPath (db : DataDB) (dist4 : ℚ → ℚ → ℚ → ℚ → ℚ)
    (backLink : String → Option (Leg × String)) (finalStopId : String)
    (endCoords : Coord) (fuel : Nat) : Except PErr PathResult :=
  match db.stopsById finalStopId with
  | none => .error .missingStop
  | some finalStop =>
    let finalDistance :=
      dist4 finalStop.stop_lat finalStop.stop_lon endCoords.lat endCoords.lon
    match backLink finalStopId with
    | none => .error .missingBackLink
    | some link0 =>
      let finalWalkTime : Int := ⌈finalDistance / (7/5 : ℚ)⌉
      let finalLegArrivalTime := link0.1.endTime
      let finalWalkLeg : Leg :=
        { type := .walk, fromStopId := some finalStopId,
          fromStopName := some finalStop.stop_name,
          fromCoords := some ⟨finalStop.stop_lat, finalStop.stop_lon⟩,
          toCoords := some endCoords,
          startTime := finalLegArrivalTime,
          endTime := finalLegArrivalTime + finalWalkTime,
          duration := finalWalkTime, distance := some finalDistance }
      match reconstructWalk backLink fuel link0 [finalWalkLeg] with
      | .error e => .error e
      | .ok legs =>
        match legs with
        | [] => .error .missingBackLink
        | l0 :: _ =>
            .ok ⟨legs, (legs.getLast?.getD l0).endTime - l0.startTime⟩

/-- The outcome record of `findItinerary`: `status` plus `path` (the
wall-clock `calcTime` statistic is not modelled). -/
inductive Outcome where
  | ok (path : List Leg) (totalDuration : Int)
  | noService
  | noStartStops
  | noEndStops
  | noPathFound
deriving DecidableEq

/-- Modelled from the spec: `findStopsWithinRadius` is absent from the
provided sources; per §4.5 it returns every master stop within the given
radius of the coordinate, paired with its distance. -/
def findStopsWithinRadius (dist4 : ℚ → ℚ → ℚ → ℚ → ℚ) (stops : List Stop)
    (coords : Coord) (radius : ℚ) : List (Stop × ℚ) :=
  stops.filterMap (fun s =>
    let d := dist4 coords.lat coords.lon s.stop_lat s.stop_lon
    if d ≤ radius then some (s, d) else none)

/-- Embeds `LocalPathfinder.findItinerary` (lines 572-735).
`departureTimeSeconds` is the seconds-of-day of the departure date and
`date` its calendar value; `transferMap` is the prebuilt transfer index;
`dist4` stands for `calculateDistance`.  `fuel` bounds both the search
loop and the back-link walk. -/
def findItinerary (db : DataDB) (transferMap : String → List TransferRec)
    (dist4 : ℚ → ℚ → ℚ → ℚ → ℚ) (startCoords endCoords : Coord)
    (departureTimeSeconds : Int) (date : GDate) (fuel : Nat) :
    Except PErr Outcome :=
  match getServiceId db.cal date with
  | none => .ok .noService
  | some serviceId =>
    let startStops := findStopsWithinRadius dist4 db.masterStops startCoords 500
    if startStops.isEmpty then .ok .noStartStops
    else
      let endStops := findStopsWithinRadius dist4 db.masterStops endCoords 500
      let endStopIds := endStops.map (fun s => s.1.stop_id)
      if endStops.isEmpty then .ok .noEndStops
      else
        let st0 : SearchState := startStops.foldl
          (fun st si =>
            let stop := si.1
            let walkTime : Int := ⌈si.2 / (7/5 : ℚ)⌉
            let arrivalTime := departureTimeSeconds + walkTime
            let leg : Leg :=
              { type := .walk, fromCoords := some startCoords,
                toCoords := some ⟨stop.stop_lat, stop.stop_lon⟩,
                toStopId := some stop.stop_id,
                toStopName := some stop.stop_name,
                startTime := departureTimeSeconds, endTime := arrivalTime,
                duration := walkTime, distance := some si.2 }
            { pq := pqEnqueue st.pq (leg, arrivalTime),
              minArrival := mapSet st.minArrival stop.stop_id arrivalTime,
              backLink := mapSet st.backLink stop.stop_id (leg, "START") })
          ⟨[], fun _ => none, fun _ => none⟩
        match searchLoop db transferMap serviceId endStopIds fuel st0 with
        | .error e => .error e
        | .ok none => .ok .noPathFound
        | .ok (some (finalStopId, stF)) =>
            match reconstructPath db dist4 stF.backLink finalStopId endCoords
                fuel with
            | .error e => .error e
            | .ok pr => .ok (.ok pr.legs pr.totalDuration)

/-- The non-decreasing leg chain test of spec §8:
`leg[i].endTime ≤ leg[i+1].startTime` for all consecutive legs. -/
def legChainOk : List Leg → Bool
  | [] => true
  | [_] => true
  | a :: b :: tl => (a.endTime ≤ b.startTime) && legChainOk (b :: tl)

/-- The spec's data-model invariant on a trip's stop-time sequence:
`arrival ≤ departure` at every stop and `departure ≤ next arrival`
between consecutive stops. -/
abbrev StopTimesSorted (sts : List StopTime) : Prop :=
  (∀ s ∈ sts, s.arrival ≤ s.departure) ∧
  List.Chain' (fun a b => a.departure ≤ b.arrival) sts

/-- Index-tracking minimum scan: `best` is the best `(index, value)` pair
so far, `k` the index of the head of the remaining list.  Strict `<` keeps
the first minimum, as a JavaScript nearest-point scan would. -/
def argminAux (f : ℚ × ℚ → ℚ) : Nat × ℚ → Nat → List (ℚ × ℚ) → Nat × ℚ
  | best, _, [] => best
  | best, k, x :: tl =>
      if f x < best.2 then argminAux f (k, f x) (k + 1) tl
      else argminAux f best (k + 1) tl

/-- Index of the first minimum of `f` over the list, `none` when empty. -/
def argminIdx (f : ℚ × ℚ → ℚ) : List (ℚ × ℚ) → Option Nat
  | [] => none
  | x :: tl => some (argminAux f (0, f x) 1 tl).1

/-- A concrete distance measure on coordinate degrees (a scaled Chebyshev
metric), used to exercise the interpolator: it is nonnegative like the
great-circle distance it stands in for. -/
def degDist (lat1 lon1 lat2 lon2 : ℚ) : ℚ :=
  111000 * max |lat1 - lat2| |lon1 - lon2|

/-- A nearest-vertex function built from `argminIdx` and `degDist`,
matching the spec's description of `findNearestPointOnRoute` (vertices are
`(lon, lat)` pairs). -/
def degNearest (cs : List (ℚ × ℚ)) (lat lon : ℚ) : Option Nat :=
  argminIdx (fun v => degDist lat lon v.2 v.1) cs

/-- Claim C1 as stated: the resolver's result is exactly the set of
service identifiers active per the spec rule (membership both ways). -/
def claimC1Prop : Prop :=
  ∀ (db : CalendarDB) (date : GDate) (sid : String),
    getServiceId db date = some sid ↔ specServiceActive db date sid = true

/-- Claim C2 as stated: for an intermediate stop with
`arrival < departure` the resolver dwells at the stop at `t = arrival`,
and moves towards the next stop at `t = departure + 1`. -/
def claimC2Prop : Prop :=
  ∀ (lookup : String → Option Stop) (front : List StopTime)
    (sprev scur : StopTime) (rest : List StopTime) (c : Stop),
    StopTimesSorted (front ++ sprev :: scur :: rest) →
    (∀ s ∈ front ++ sprev :: scur :: rest, (lookup s.stop_id).isSome) →
    lookup scur.stop_id = some c →
    scur.arrival < scur.departure →
    (findCurrentState lookup (front ++ sprev :: scur :: rest) scur.arrival =
      some (.waiting c scur.departure)) ∧
    (∀ snext rest', rest = snext :: rest' → ∀ cn,
      lookup snext.stop_id = some cn →
      findCurrentState lookup (front ++ sprev :: scur :: rest)
          (scur.departure + 1) =
        some (.moving c cn scur.departure snext.arrival
          (calculateProgress scur.departure snext.arrival
            (scur.departure + 1))))

/-- Claim C7 as stated: for any admissible distance function and
nearest-vertex function (nonnegative distances; a nearest index that
exists, is in range and minimises the distance), the interpolated position
at progress 0 is the from-stop coordinate and at progress 1 the to-stop
coordinate, within one metre, with or without a line geometry. -/
def claimC7Prop : Prop :=
  ∀ (dist4 : ℚ → ℚ → ℚ → ℚ → ℚ)
    (nearest : List (ℚ × ℚ) → ℚ → ℚ → Option Nat),
    (∀ a b c d, 0 ≤ dist4 a b c d) →
    (∀ cs la lo i, nearest cs la lo = some i → i < cs.length) →
    (∀ cs la lo, cs ≠ [] → nearest cs la lo ≠ none) →
    (∀ cs la lo i, nearest cs la lo = some i → ∀ j, j < cs.length →
      dist4 la lo (cs.getD i (0, 0)).2 (cs.getD i (0, 0)).1 ≤
      dist4 la lo (cs.getD j (0, 0)).2 (cs.getD j (0, 0)).1) →
    ∀ (geom : Option (List (ℚ × ℚ))) (fromStop toStop : Stop),
      within1m (calculatePosition dist4 nearest geom fromStop toStop 0)
        (fromStop.stop_lat, fromStop.stop_lon) ∧
      within1m (calculatePosition dist4 nearest geom fromStop toStop 1)
        (toStop.stop_lat, toStop.stop_lon)

/-- Claim C8 as stated: a query never aborts with a thrown error
(missing stop, missing trip, broken back-link chain); invariant violations
are supposed to surface as the `NoPathFound` data outcome instead. -/
def claimC8Prop : Prop :=
  ∀ (db : DataDB) (tm : String → List TransferRec)
    (dist4 : ℚ → ℚ → ℚ → ℚ → ℚ) (sc ec : Coord) (dep : Int) (date : GDate)
    (fuel : Nat),
    findItinerary db tm dist4 sc ec dep date fuel ≠ .error .missingStop ∧
    findItinerary db tm dist4 sc ec dep date fuel ≠ .error .missingTrip ∧
    findItinerary db tm dist4 sc ec dep date fuel ≠ .error .missingBackLink

/-! ## Concrete instances used by counterexamples and witnesses -/

/-- A date used by the concrete scenarios (a Wednesday). -/
def exDate : GDate := ⟨20250101, 3⟩

/-- A calendar on which service `S` runs every day of 2000-2099. -/
def calS : CalendarDB := ⟨[⟨"S", fun _ => true, 20000101, 20991231⟩], []⟩

/-- A calendar holding a rule for service `Y` and a removed-type exception
for the unrelated service `X` on 2025-01-01. -/
def calC1 : CalendarDB :=
  ⟨[⟨"Y", fun _ => true, 20240101, 20260101⟩], [⟨"X", 20250101, "2"⟩]⟩

/-- Three concrete stops. -/
def stopA : Stop := ⟨"A", "Stop A", 0, 0⟩

def stopB : Stop := ⟨"B", "Stop B", 1, 1⟩

def stopC : Stop := ⟨"C", "Stop C", 2, 2⟩

/-- A stop lookup knowing `A`, `B` and `C`. -/
def exLookup : String → Option Stop := fun id =>
  if id = "A" then some stopA
  else if id = "B" then some stopB
  else if id = "C" then some stopC
  else none

/-- A three-stop schedule: `A` 0/100, `B` 200/300, `C` 400/400. -/
def exSts : List StopTime :=
  [⟨"T1", "A", 1, 0, 100⟩, ⟨"T1", "B", 2, 200, 300⟩, ⟨"T1", "C", 3, 400, 400⟩]

/-- The trip and route owning `exSts`. -/
def exTrip : Trip := ⟨"T1", "R1", "S", "Stop C"⟩

/-- A concrete route record. -/
def exRoute : Route := ⟨"R1", "1", "FF0000", "FFFFFF"⟩

/-- A loaded catalog holding the single trip `T1` on service `S`. -/
def exDb : DataDB :=
  { cal := calS
    trips := [exTrip]
    tripsByTripId := fun id => if id = "T1" then some exTrip else none
    stopTimesByTrip := fun id => if id = "T1" then exSts else []
    stopsById := exLookup
    stopTimesByStop := fun id =>
      if id = "A" then [⟨"T1", "A", 1, 0, 100⟩]
      else if id = "B" then [⟨"T1", "B", 2, 200, 300⟩]
      else if id = "C" then [⟨"T1", "C", 3, 400, 400⟩]
      else []
    routesById := fun id => if id = "R1" then some exRoute else none
    masterStops := [stopA, stopB, stopC]
    isLoaded := true }

/-- A search state holding a provisional arrival label of `0` at stop `B`
(reachable: a departure at second 0 from a start stop at distance 0). -/
def stLabel0 : SearchState :=
  ⟨[], fun k => if k = "B" then some 0 else none, fun _ => none⟩

/-- Planner scenario stops: `A` at the origin, `C` 140 m east of it
(under `degDist`), `B` far north. -/
def stopA5 : Stop := ⟨"A", "A", 0, 0⟩

/-- See `stopA5`. -/
def stopC5 : Stop := ⟨"C", "C", 0, 140 / 111000⟩

/-- See `stopA5`. -/
def stopB5 : Stop := ⟨"B", "B", 1 / 10, 0⟩

/-- The one trip of the planner scenario: departs `A` at second 0 and
arrives at `B` at second 300. -/
def trip5 : Trip := ⟨"T1", "R1", "S", "B"⟩

/-- Boarding event of `trip5` at `A`. -/
def ev5A : StopTime := ⟨"T1", "A", 1, 0, 0⟩

/-- Alighting event of `trip5` at `B`. -/
def ev5B : StopTime := ⟨"T1", "B", 2, 300, 300⟩

/-- The planner-scenario catalog. -/
def db5 : DataDB :=
  { cal := calS
    trips := [trip5]
    tripsByTripId := fun id => if id = "T1" then some trip5 else none
    stopTimesByTrip := fun id => if id = "T1" then [ev5A, ev5B] else []
    stopsById := fun id =>
      if id = "A" then some stopA5
      else if id = "B" then some stopB5
      else if id = "C" then some stopC5
      else none
    stopTimesByStop := fun id =>
      if id = "A" then [ev5A] else if id = "B" then [ev5B] else []
    routesById := fun id => if id = "R1" then some exRoute else none
    masterStops := [stopA5, stopC5, stopB5]
    isLoaded := true }

/-- The transfer index `prebuildTransferMap` yields on the planner
scenario: `A ↔ C` at 140 m, 100 s; `B` out of range. -/
def tm5 : String → List TransferRec := fun id =>
  if id = "A" then [⟨"C", 100, 140⟩]
  else if id = "C" then [⟨"A", 100, 140⟩]
  else []

/-- Catalog for the missing-stop scenario: the events of `trip5` reference
stop `B`, but `stopsById` does not know `B`; the destination stop `D` is
far from `A`. -/
def stopD8 : Stop := ⟨"D", "D", 1 / 2, 1 / 2⟩

/-- See `stopD8`. -/
def db8 : DataDB :=
  { cal := calS
    trips := [trip5]
    tripsByTripId := fun id => if id = "T1" then some trip5 else none
    stopTimesByTrip := fun id => if id = "T1" then [ev5A, ev5B] else []
    stopsById := fun id =>
      if id = "A" then some stopA5
      else if id = "D" then some stopD8
      else none
    stopTimesByStop := fun id => if id = "A" then [ev5A] else []
    routesById := fun id => if id = "R1" then some exRoute else none
    masterStops := [stopA5, stopD8]
    isLoaded := true }

/-- An access walk reaching stop `A` of the planner scenario at second 0,
used to seed a search frontier. -/
def wSeedLeg : Leg :=
  { type := .walk, fromCoords := some ⟨0, 0⟩, toCoords := some ⟨0, 0⟩,
    toStopId := some "A", toStopName := some "A",
    startTime := 0, endTime := 0, duration := 0, distance := some 0 }

/-- The search state after seeding the frontier with `wSeedLeg`: one
queue entry for stop `A` with its label and back-link set. -/
def wSeedState : SearchState :=
  ⟨[(wSeedLeg, 0)], mapSet (fun _ => none) "A" 0,
    mapSet (fun _ => none) "A" (wSeedLeg, "START")⟩

/-- Two stops and a constant 300 m distance for the transfer-index
witness. -/
def wStops6 : List Stop := [⟨"S1", "S1", 0, 0⟩, ⟨"S2", "S2", 0, 1⟩]

/-- See `wStops6`. -/
def wDist6 : Stop → Stop → ℚ := fun _ _ => 300

/-- A two-vertex polyline at latitude 0.5, far from both interpolation
endpoints. -/
def geo7 : List (ℚ × ℚ) := [(0, 1 / 2), (1, 1 / 2)]

/-- From-stop of the interpolation scenario, at the origin. -/
def stopF7 : Stop := ⟨"F", "F", 0, 0⟩

/-- To-stop of the interpolation scenario, one degree east. -/
def stopT7 : Stop := ⟨"T", "T", 0, 1⟩

/-! ## Helper lemmas -/

theorem calculateProgress_bounds (d a t : Int) :
    0 ≤ calculateProgress d a t ∧ calculateProgress d a t ≤ 1 := by
  simp only [calculateProgress]
  split_ifs with h
  · norm_num
  · refine ⟨le_max_left 0 _, max_le (by norm_num) (min_le_left 1 _)⟩

theorem findStateLoop_moving_bounds (lookup : String → Option Stop)
    (rest : List StopTime) :
    ∀ (prev : StopTime) (t : Int) (p c : Stop) (d a : Int) (pr : ℚ),
      findStateLoop lookup prev rest t = some (.moving p c d a pr) →
      0 ≤ pr ∧ pr ≤ 1 := by
  induction rest with
  | nil => intro prev t p c d a pr h; simp [findStateLoop] at h
  | cons cur tail ih =>
    intro prev t p c d a pr h
    rw [findStateLoop] at h
    split_ifs at h with h1 h2
    · cases hl : lookup cur.stop_id <;> simp [hl] at h
    · cases hl1 : lookup prev.stop_id <;> cases hl2 : lookup cur.stop_id <;>
        simp [hl1, hl2] at h
      obtain ⟨-, -, -, -, hpr⟩ := h
      exact hpr ▸ calculateProgress_bounds prev.departure cur.arrival t
    · exact ih cur t p c d a pr h

/-- C10: every moving state the Trip Resolver produces carries a progress
value in `[0, 1]`, and on a non-positive segment duration
(`arrival ≤ departure`) the progress computation returns 0 instead of
dividing by zero. -/
theorem claim_C10_progress_bounds :
    (∀ (lookup : String → Option Stop) (sts : List StopTime) (t : Int)
        (p c : Stop) (d a : Int) (pr : ℚ),
        findCurrentState lookup sts t = some (.moving p c d a pr) →
        0 ≤ pr ∧ pr ≤ 1) ∧
    (∀ d a t : Int, a ≤ d → calculateProgress d a t = 0) := by
  constructor
  · intro lookup sts t p c d a pr h
    cases sts with
    | nil => simp [findCurrentState] at h
    | cons first rest =>
      rw [findCurrentState] at h
      split_ifs at h with h1
      · cases hl : lookup first.stop_id <;> simp [hl] at h
      · exact findStateLoop_moving_bounds lookup rest first t p c d a pr h
  · intro d a t h
    simp only [calculateProgress]
    rw [if_pos (by omega)]

/-- The progress of the moving state between stops `A` and `B` of the
concrete schedule at second 150: witnesses C10's bounds at that state. -/
theorem claim_C10_witness : (0 : ℚ) ≤ 1 / 2 ∧ (1 / 2 : ℚ) ≤ 1 :=
  claim_C10_progress_bounds.1 exLookup exSts 150 stopA stopB 100 200 (1 / 2)
    (by decide)

/-- C1 (counterexample): the resolver does not return the set of all
spec-active services — on 2025-01-01, service `Y` is rule-active and has
no exception, yet `getServiceId` returns nothing because the first
exception matching the date (a removal for the unrelated service `X`)
decides for every service. -/
theorem claim_C1_counterexample : ¬ claimC1Prop := by
  intro h
  have hy := (h calC1 exDate "Y").2 (by decide)
  exact absurd hy (by decide)

/-- C1 (amended): the resolver returns at most one service identifier,
and any identifier it returns is active per the spec's rule (an added
exception matching the date, or no matching exception at all and a rule
whose window and day bit match); the converse inclusion fails. -/
theorem claim_C1_amended (db : CalendarDB) (date : GDate) (sid : String)
    (h : getServiceId db date = some sid) :
    specServiceActive db date sid = true := by
  simp only [specServiceActive, Bool.or_eq_true, Bool.and_eq_true,
    Bool.not_eq_true', List.any_eq_true, List.any_eq_false,
    decide_eq_true_eq]
  cases hf : db.calendarDates.find? (fun d => d.date = date.dateString) with
  | some e =>
    simp only [getServiceId, hf] at h
    by_cases ht : e.exception_type = "1"
    · rw [if_pos ht] at h
      have hsid : e.service_id = sid := by injection h
      have hmem := List.mem_of_find?_eq_some hf
      have hdate := List.find?_some hf
      simp only [decide_eq_true_eq] at hdate
      exact Or.inl ⟨e, hmem, hsid, hdate, ht⟩
    · rw [if_neg ht] at h
      exact absurd h (by simp)
  | none =>
    simp only [getServiceId, hf] at h
    cases hr : db.calendar.find? (fun s =>
        s.days date.dayOfWeek = true ∧
        s.start_date ≤ date.dateString ∧ date.dateString ≤ s.end_date) with
    | none => rw [hr] at h; simp at h
    | some s =>
      rw [hr] at h
      simp only [Option.map_some'] at h
      have hsid : s.service_id = sid := by injection h
      have hmem := List.mem_of_find?_eq_some hr
      have hp := List.find?_some hr
      simp only [decide_eq_true_eq] at hp
      refine Or.inr ⟨?_, s, hmem, hsid, hp.1, hp.2.1, hp.2.2⟩
      intro x hx
      have hnd := List.find?_eq_none.mp hf x hx
      simp only [decide_eq_true_eq] at hnd
      exact fun hcontra => hnd hcontra.2.1

/-- On the everyday calendar for service `S`, the resolved identifier is
spec-active: witnesses C1's amended soundness direction. -/
theorem claim_C1_amended_witness : specServiceActive calS exDate "S" = true :=
  claim_C1_amended calS exDate "S" (by decide)

/-- C4: the code deviates from the strict-improvement rule at a zero
label.  `minArrivalTime.get(stop) || Infinity` treats a stored label of 0
as missing (JavaScript falsy), so a candidate arriving at second 5 at a
stop whose provisional label is 0 passes the acceptance test and
overwrites the better label and its back-link, and the stale-entry skip
test likewise never fires on such a stop. -/
theorem claim_C4_code_divergence :
    (ltInf 5 (jsOrInfinity (some 0)) = true ∧ ¬((5 : Int) < 0)) ∧
    (gtInf 5 (jsOrInfinity (some 0)) = false ∧ (0 : Int) < 5) ∧
    (match relaxTransfer exDb "A" 2 stLabel0 ⟨"B", 3, 4⟩ with
      | .ok st => st.minArrival "B"
      | .error _ => none) = some 5 := by
  refine ⟨⟨rfl, by decide⟩, ⟨rfl, by decide⟩, by decide⟩

theorem getActiveTrips_mem (db : DataDB) (t : Int) (date : GDate) :
    ∀ a ∈ getActiveTrips db t date,
      2 ≤ a.stopTimes.length ∧
      a.stopTimes = db.stopTimesByTrip a.trip.trip_id := by
  intro a ha
  unfold getActiveTrips at ha
  cases hs : getServiceId db.cal date with
  | none => rw [hs] at ha; simp at ha
  | some sid =>
    rw [hs] at ha
    rw [List.mem_filterMap] at ha
    obtain ⟨trip, -, hf⟩ := ha
    by_cases h1 : trip.service_id = sid
    · rw [if_pos h1] at hf
      by_cases h2 : (db.stopTimesByTrip trip.trip_id).length < 2
      · rw [if_pos h2] at hf; simp at hf
      · rw [if_neg h2] at hf
        cases hh : (db.stopTimesByTrip trip.trip_id).head? with
        | none => rw [hh] at hf; simp at hf
        | some firstStop =>
          cases hl : (db.stopTimesByTrip trip.trip_id).getLast? with
          | none => rw [hh, hl] at hf; simp at hf
          | some lastStop =>
            rw [hh, hl] at hf
            dsimp only at hf
            split_ifs at hf with h3
            have := Option.some.inj hf
            subst this
            refine ⟨?_, rfl⟩
            dsimp only
            omega
    · rw [if_neg h1] at hf; simp at hf

/-- C9: every `(trip, state)` pair returned by the scheduler's
active-trips query has at least two stop-time events, and a trip whose
indexed stop-time sequence has exactly one event is never reported. -/
theorem claim_C9_min_two_events (db : DataDB) (t : Int) (date : GDate) :
    (∀ pr ∈ schedulerActiveTrips db t date,
      2 ≤ pr.1.stopTimes.length ∧
      pr.1.stopTimes = db.stopTimesByTrip pr.1.trip.trip_id) ∧
    (∀ trip : Trip, (db.stopTimesByTrip trip.trip_id).length = 1 →
      ∀ pr ∈ schedulerActiveTrips db t date, pr.1.trip ≠ trip) := by
  have hmain : ∀ pr ∈ schedulerActiveTrips db t date,
      2 ≤ pr.1.stopTimes.length ∧
      pr.1.stopTimes = db.stopTimesByTrip pr.1.trip.trip_id := by
    intro pr hpr
    unfold schedulerActiveTrips at hpr
    split_ifs at hpr with h0
    · simp at hpr
    · rw [List.mem_filterMap] at hpr
      obtain ⟨a, ha, hmap⟩ := hpr
      rw [Option.map_eq_some'] at hmap
      obtain ⟨st, -, hst⟩ := hmap
      have := getActiveTrips_mem db t date a ha
      rw [← hst]
      exact this
  refine ⟨hmain, ?_⟩
  intro trip hlen pr hpr heq
  obtain ⟨h2, hst⟩ := hmain pr hpr
  rw [heq] at hst
  rw [hst, hlen] at h2
  omega

/-- The scheduler's result on the concrete catalog at second 150:
witnesses C9 on its single returned pair. -/
theorem claim_C9_witness :
    2 ≤ (⟨"T1", exTrip, exSts, some exRoute⟩ : ActiveTrip).stopTimes.length ∧
    (⟨"T1", exTrip, exSts, some exRoute⟩ : ActiveTrip).stopTimes =
      exDb.stopTimesByTrip exTrip.trip_id :=
  (claim_C9_min_two_events exDb 150 exDate).1
    (⟨"T1", exTrip, exSts, some exRoute⟩,
      .moving stopA stopB 100 200 (calculateProgress 100 200 150))
    (by decide)

theorem findCurrentState_cons_of_dep_lt (lookup : String → Option Stop)
    (s0 : StopTime) (tail : List StopTime) (t : Int)
    (h : s0.departure < t) :
    findCurrentState lookup (s0 :: tail) t = findStateLoop lookup s0 tail t := by
  rw [findCurrentState, if_neg]
  omega

theorem findStateLoop_append_skip (lookup : String → Option Stop)
    (l : List StopTime) :
    ∀ (prev : StopTime) (rest : List StopTime) (t : Int),
      (∀ s ∈ l, s.arrival ≤ s.departure ∧ s.departure < t) →
      findStateLoop lookup prev (l ++ rest) t =
        findStateLoop lookup (l.getLastD prev) rest t := by
  induction l with
  | nil => intro prev rest t _; rfl
  | cons cur l' ih =>
    intro prev rest t h
    have hcur := h cur (by simp)
    rw [List.cons_append, findStateLoop, if_neg (by omega), if_neg (by omega),
      ih cur rest t (fun s hs => h s (by simp [hs])), List.getLastD_cons]

theorem findStateLoop_fires_moving (lookup : String → Option Stop)
    (sprev scur : StopTime) (rest : List StopTime) (t : Int) (p c : Stop)
    (hmov : sprev.departure < t) (harr : t ≤ scur.arrival)
    (hp : lookup sprev.stop_id = some p) (hc : lookup scur.stop_id = some c) :
    findStateLoop lookup sprev (scur :: rest) t =
      some (.moving p c sprev.departure scur.arrival
        (calculateProgress sprev.departure scur.arrival t)) := by
  rw [findStateLoop, if_neg (by omega), if_pos ⟨by omega, harr⟩, hp, hc]

theorem findCurrentState_moving_at (lookup : String → Option Stop)
    (front : List StopTime) (sprev scur : StopTime) (rest : List StopTime)
    (t : Int) (p c : Stop)
    (hfr : ∀ s ∈ front ++ [sprev], s.arrival ≤ s.departure ∧ s.departure < t)
    (harr : t ≤ scur.arrival)
    (hp : lookup sprev.stop_id = some p) (hc : lookup scur.stop_id = some c) :
    findCurrentState lookup (front ++ sprev :: scur :: rest) t =
      some (.moving p c sprev.departure scur.arrival
        (calculateProgress sprev.departure scur.arrival t)) := by
  have hsp := hfr sprev (by simp)
  cases front with
  | nil =>
    rw [List.nil_append,
      findCurrentState_cons_of_dep_lt lookup sprev _ t hsp.2]
    exact findStateLoop_fires_moving lookup sprev scur rest t p c hsp.2 harr hp hc
  | cons f front' =>
    have hf := hfr f (by simp)
    rw [List.cons_append, findCurrentState_cons_of_dep_lt lookup f _ t hf.2]
    have hassoc : front' ++ sprev :: scur :: rest =
        (front' ++ [sprev]) ++ scur :: rest := by simp
    rw [hassoc,
      findStateLoop_append_skip lookup (front' ++ [sprev]) f (scur :: rest) t
        (fun s hs => hfr s (by simp at hs ⊢; tauto)),
      List.getLastD_concat]
    exact findStateLoop_fires_moving lookup sprev scur rest t p c hsp.2 harr hp hc

theorem findCurrentState_waiting_at (lookup : String → Option Stop)
    (front : List StopTime) (sprev scur : StopTime) (rest : List StopTime)
    (t : Int) (c : Stop)
    (hfr : ∀ s ∈ front ++ [sprev], s.arrival ≤ s.departure ∧ s.departure < t)
    (hw1 : scur.arrival < t) (hw2 : t ≤ scur.departure)
    (hc : lookup scur.stop_id = some c) :
    findCurrentState lookup (front ++ sprev :: scur :: rest) t =
      some (.waiting c scur.departure) := by
  have hfire : findStateLoop lookup sprev (scur :: rest) t =
      some (.waiting c scur.departure) := by
    rw [findStateLoop, if_pos ⟨hw1, hw2⟩, hc]
  have hsp := hfr sprev (by simp)
  cases front with
  | nil =>
    rw [List.nil_append,
      findCurrentState_cons_of_dep_lt lookup sprev _ t hsp.2]
    exact hfire
  | cons f front' =>
    have hf := hfr f (by simp)
    rw [List.cons_append, findCurrentState_cons_of_dep_lt lookup f _ t hf.2]
    have hassoc : front' ++ sprev :: scur :: rest =
        (front' ++ [sprev]) ++ scur :: rest := by simp
    rw [hassoc,
      findStateLoop_append_skip lookup (front' ++ [sprev]) f (scur :: rest) t
        (fun s hs => hfr s (by simp at hs ⊢; tauto)),
      List.getLastD_concat]
    exact hfire

/-- C2 (counterexample): at `t = stop[i].arrival` with
`arrival < departure` at an intermediate stop, the resolver does not
dwell — on the concrete schedule `A 0/100, B 200/300, C 400/400` it
reports the bus moving `A → B` at second 200, because the intermediate
dwell test is strict in the arrival (`arrival < t`). -/
theorem claim_C2_counterexample : ¬ claimC2Prop := by
  intro h
  have := (h exLookup [] ⟨"T1", "A", 1, 0, 100⟩ ⟨"T1", "B", 2, 200, 300⟩
    [⟨"T1", "C", 3, 400, 400⟩] stopB
    (by
      refine ⟨by decide, ?_⟩
      simp only [List.nil_append, List.chain'_cons, List.chain'_singleton]
      decide)
    (by decide) (by decide) (by decide)).1
  exact absurd this (by decide)

/-- C2 (amended): at `t = stop[i].arrival` (with the preceding departures
strictly earlier) the resolver reports `Move(stop[i-1] → stop[i])`; it
dwells at `stop[i]` exactly for `arrival < t ≤ departure`; and at
`t = departure + 1` it reports `Move(stop[i] → stop[i+1])` provided that
instant is not after the next arrival. -/
theorem claim_C2_amended (lookup : String → Option Stop)
    (front : List StopTime) (sprev scur : StopTime) (rest : List StopTime)
    (p c : Stop)
    (hfr : ∀ s ∈ front ++ [sprev],
      s.arrival ≤ s.departure ∧ s.departure < scur.arrival)
    (harr : scur.arrival ≤ scur.departure)
    (hp : lookup sprev.stop_id = some p)
    (hc : lookup scur.stop_id = some c) :
    (findCurrentState lookup (front ++ sprev :: scur :: rest) scur.arrival =
      some (.moving p c sprev.departure scur.arrival
        (calculateProgress sprev.departure scur.arrival scur.arrival))) ∧
    (∀ t : Int, scur.arrival < t → t ≤ scur.departure →
      findCurrentState lookup (front ++ sprev :: scur :: rest) t =
        some (.waiting c scur.departure)) ∧
    (∀ snext rest', rest = snext :: rest' →
      scur.departure + 1 ≤ snext.arrival →
      ∀ cn, lookup snext.stop_id = some cn →
      findCurrentState lookup (front ++ sprev :: scur :: rest)
          (scur.departure + 1) =
        some (.moving c cn scur.departure snext.arrival
          (calculateProgress scur.departure snext.arrival
            (scur.departure + 1)))) := by
  refine ⟨?_, ?_, ?_⟩
  · exact findCurrentState_moving_at lookup front sprev scur rest scur.arrival
      p c hfr le_rfl hp hc
  · intro t h1 h2
    exact findCurrentState_waiting_at lookup front sprev scur rest t c
      (fun s hs => ⟨(hfr s hs).1, by have := (hfr s hs).2; omega⟩) h1 h2 hc
  · intro snext rest' hrest hgap cn hn
    subst hrest
    have hassoc : front ++ sprev :: scur :: snext :: rest' =
        (front ++ [sprev]) ++ scur :: snext :: rest' := by simp
    rw [hassoc]
    exact findCurrentState_moving_at lookup (front ++ [sprev]) scur snext rest'
      (scur.departure + 1) c cn
      (by
        intro s hs
        simp only [List.append_assoc, List.mem_append, List.mem_singleton] at hs
        rcases hs with hs | hs | hs
        · have h1 := hfr s (by simp [hs])
          exact ⟨h1.1, by omega⟩
        · have h1 := hfr s (by simp [hs])
          exact ⟨h1.1, by omega⟩
        · subst hs; exact ⟨harr, by omega⟩)
      hgap hc hn

/-- The amended C2 statement on the concrete schedule: moving `A → B` at
second 200 and moving `B → C` at second 301. -/
theorem claim_C2_amended_witness :
    (findCurrentState exLookup
        ([] ++ ⟨"T1", "A", 1, 0, 100⟩ :: (⟨"T1", "B", 2, 200, 300⟩ : StopTime) ::
          [⟨"T1", "C", 3, 400, 400⟩]) 200 =
      some (.moving stopA stopB 100 200 (calculateProgress 100 200 200))) ∧
    (findCurrentState exLookup
        ([] ++ ⟨"T1", "A", 1, 0, 100⟩ :: (⟨"T1", "B", 2, 200, 300⟩ : StopTime) ::
          [⟨"T1", "C", 3, 400, 400⟩]) 301 =
      some (.moving stopB stopC 300 400 (calculateProgress 300 400 301))) := by
  have h := claim_C2_amended exLookup [] ⟨"T1", "A", 1, 0, 100⟩
    ⟨"T1", "B", 2, 200, 300⟩ [⟨"T1", "C", 3, 400, 400⟩] stopA stopB
    (by decide) (by decide) (by decide) (by decide)
  exact ⟨h.1, h.2.2 ⟨"T1", "C", 3, 400, 400⟩ [] rfl (by decide) stopC (by decide)⟩

theorem findStateLoop_isSome (lookup : String → Option Stop)
    (rest : List StopTime) :
    ∀ (prev last : StopTime) (t : Int),
      (∀ s ∈ rest, (lookup s.stop_id).isSome) →
      (lookup prev.stop_id).isSome →
      (∀ s ∈ rest, s.arrival ≤ s.departure) →
      List.Chain' (fun a b => a.departure ≤ b.arrival) (prev :: rest) →
      rest.getLast? = some last →
      prev.departure < t → t ≤ last.arrival →
      (findStateLoop lookup prev rest t).isSome := by
  induction rest with
  | nil => intro prev last t _ _ _ _ hl _ _; simp at hl
  | cons cur tail ih =>
    intro prev last t hk hkp hs hchain hl hlt hle
    rw [findStateLoop]
    by_cases h1 : t > cur.arrival ∧ t ≤ cur.departure
    · rw [if_pos h1]
      have hcs := hk cur (by simp)
      cases hcur : lookup cur.stop_id with
      | none => rw [hcur] at hcs; simp at hcs
      | some s => simp
    · rw [if_neg h1]
      by_cases h2 : t > prev.departure ∧ t ≤ cur.arrival
      · rw [if_pos h2]
        have hcs := hk cur (by simp)
        cases hp : lookup prev.stop_id with
        | none => rw [hp] at hkp; simp at hkp
        | some p =>
          cases hcur : lookup cur.stop_id with
          | none => rw [hcur] at hcs; simp at hcs
          | some s => simp
      · rw [if_neg h2]
        have hdep : cur.departure < t := by omega
        cases tail with
        | nil =>
          have : cur = last := by
            have := List.getLast?_singleton cur
            rw [this] at hl
            exact Option.some.inj hl
          subst this
          have := hs cur (by simp)
          omega
        | cons x xs =>
          apply ih cur last t (fun s hsm => hk s (by simp [hsm]))
            (hk cur (by simp)) (fun s hsm => hs s (by simp [hsm]))
            hchain.tail _ hdep hle
          rw [← hl]
          rfl

/-- C3: on a trip whose stop times are sorted (arrival before departure at
each stop, departures before the next arrival) and whose stops are all
known, the resolver returns a state for every second of
`[first.departure, last.arrival]` — no single-second gaps. -/
theorem claim_C3_resolver_total (lookup : String → Option Stop)
    (sts : List StopTime) (first last : StopTime) (t : Int)
    (hsorted : StopTimesSorted sts)
    (hknown : ∀ s ∈ sts, (lookup s.stop_id).isSome)
    (hf : sts.head? = some first) (hl : sts.getLast? = some last)
    (h1 : first.departure ≤ t) (h2 : t ≤ last.arrival) :
    (findCurrentState lookup sts t).isSome := by
  cases sts with
  | nil => simp at hf
  | cons s0 rest =>
    have hfirst : s0 = first := by
      rw [List.head?_cons] at hf
      exact Option.some.inj hf
    subst hfirst
    rw [findCurrentState]
    by_cases hw : t ≥ s0.arrival ∧ t ≤ s0.departure
    · rw [if_pos hw]
      have hcs := hknown s0 (by simp)
      cases hcur : lookup s0.stop_id with
      | none => rw [hcur] at hcs; simp at hcs
      | some s => simp
    · rw [if_neg hw]
      have harr : s0.arrival ≤ s0.departure := hsorted.1 s0 (by simp)
      have hgt : s0.departure < t := by omega
      cases rest with
      | nil =>
        have : s0 = last := by
          have := List.getLast?_singleton s0
          rw [this] at hl
          exact Option.some.inj hl
        subst this
        omega
      | cons x xs =>
        apply findStateLoop_isSome lookup (x :: xs) s0 last t
          (fun s hsm => hknown s (by simp [hsm])) (hknown s0 (by simp))
          (fun s hsm => hsorted.1 s (by simp [hsm])) hsorted.2 _ hgt h2
        rw [← hl]
        rfl

/-- The totality of the resolver on the concrete sorted schedule at the
boundary second 400 (the last arrival). -/
theorem claim_C3_witness : (findCurrentState exLookup exSts 400).isSome :=
  claim_C3_resolver_total exLookup exSts ⟨"T1", "A", 1, 0, 100⟩
    ⟨"T1", "C", 3, 400, 400⟩ 400
    (by
      refine ⟨by decide, ?_⟩
      simp only [exSts, List.chain'_cons, List.chain'_singleton]
      decide)
    (by decide) (by decide) (by decide) (by decide) (by decide)

/-- C6: a transfer record from the `i`-th master stop to the `j`-th is
stored iff the stops are distinct (`i ≠ j`) and their distance is at most
`MAX_WALK_METERS = 500`; the record carries that distance and
`walk_seconds = ⌈distance / 1.4⌉`; the transfer map pairs each stop id
with its record list; and (with distinct stop ids) no record points from
a stop to itself. -/
theorem claim_C6_transfer_index (dist : Stop → Stop → ℚ) (stops : List Stop)
    (i : Fin stops.length) :
    (∀ rec : TransferRec, rec ∈ transfersFor dist stops i ↔
      ∃ j : Fin stops.length, i ≠ j ∧
        dist (stops.get i) (stops.get j) ≤ 500 ∧
        rec = ⟨(stops.get j).stop_id,
          ⌈dist (stops.get i) (stops.get j) / (7/5 : ℚ)⌉,
          dist (stops.get i) (stops.get j)⟩) ∧
    ((stops.get i).stop_id, transfersFor dist stops i) ∈
      prebuildTransferMap dist stops ∧
    ((stops.map Stop.stop_id).Nodup →
      ∀ rec ∈ transfersFor dist stops i,
        rec.toStopId ≠ (stops.get i).stop_id) := by
  have hchar : ∀ rec : TransferRec, rec ∈ transfersFor dist stops i ↔
      ∃ j : Fin stops.length, i ≠ j ∧
        dist (stops.get i) (stops.get j) ≤ 500 ∧
        rec = ⟨(stops.get j).stop_id,
          ⌈dist (stops.get i) (stops.get j) / (7/5 : ℚ)⌉,
          dist (stops.get i) (stops.get j)⟩ := by
    intro rec
    unfold transfersFor
    rw [List.mem_filterMap]
    constructor
    · rintro ⟨j, -, hj⟩
      by_cases hij : i = j
      · rw [if_pos hij] at hj; simp at hj
      · rw [if_neg hij] at hj
        dsimp only at hj
        split_ifs at hj with hd
        exact ⟨j, hij, hd, (Option.some.inj hj).symm⟩
    · rintro ⟨j, hij, hd, hrec⟩
      refine ⟨j, List.mem_finRange j, ?_⟩
      rw [if_neg hij]
      dsimp only
      rw [if_pos hd, hrec]
  refine ⟨hchar, ?_, ?_⟩
  · unfold prebuildTransferMap
    exact List.mem_map.mpr ⟨i, List.mem_finRange i, rfl⟩
  · intro hnd rec hrec
    obtain ⟨j, hij, -, hrec'⟩ := (hchar rec).mp hrec
    rw [hrec']
    dsimp only
    intro hcontra
    apply hij
    have hi' : (i : Nat) < (stops.map Stop.stop_id).length := by
      simp
    have hj' : (j : Nat) < (stops.map Stop.stop_id).length := by
      simp
    have hmap : (stops.map Stop.stop_id)[(i : Nat)] =
        (stops.map Stop.stop_id)[(j : Nat)] := by
      rw [List.getElem_map, List.getElem_map]
      rw [← List.get_eq_getElem, ← List.get_eq_getElem]
      rw [hcontra]
    have := (List.Nodup.getElem_inj_iff hnd).mp hmap
    exact Fin.ext this

/-- The transfer index on two stops 300 m apart: witnesses C6's record
shape, its membership in the prebuilt map, and the no-self-transfer
property. -/
theorem claim_C6_witness :
    ((⟨"S2", ⌈(300 : ℚ) / (7/5 : ℚ)⌉, 300⟩ : TransferRec) ∈
      transfersFor wDist6 wStops6 ⟨0, by decide⟩) ∧
    (("S1", transfersFor wDist6 wStops6 ⟨0, by decide⟩) ∈
      prebuildTransferMap wDist6 wStops6) ∧
    ∀ rec ∈ transfersFor wDist6 wStops6 ⟨0, by decide⟩,
      rec.toStopId ≠ "S1" := by
  have h := claim_C6_transfer_index wDist6 wStops6 ⟨0, by decide⟩
  refine ⟨?_, h.2.1, ?_⟩
  · exact (h.1 _).mpr ⟨⟨1, by decide⟩, by decide, by decide, rfl⟩
  · exact h.2.2 (by decide)

theorem exceptBind_error {ε α β : Type} (e : ε) (g : α → Except ε β) :
    ((Except.error e : Except ε α) >>= g) = Except.error e := rfl

theorem exceptBind_ok {ε α β : Type} (a : α) (g : α → Except ε β) :
    ((Except.ok a : Except ε α) >>= g) = g a := rfl

theorem foldlM_ne_error {α : Type} (f : SearchState → α → Except PErr SearchState)
    (e : PErr) (l : List α) :
    ∀ init : SearchState, (∀ st a, a ∈ l → f st a ≠ .error e) →
      l.foldlM f init ≠ .error e := by
  induction l with
  | nil =>
    intro init _ hcontra
    rw [List.foldlM_nil] at hcontra
    exact absurd hcontra (by intro hx; cases hx)
  | cons a l' ih =>
    intro init h
    rw [List.foldlM_cons]
    cases hfa : f init a with
    | error e' =>
      have hne := h init a (by simp)
      rw [hfa] at hne
      rw [exceptBind_error]
      intro hcontra
      exact hne (by rw [hcontra])
    | ok st' =>
      rw [exceptBind_ok]
      exact ih st' (fun st b hb => h st b (by simp [hb]))

theorem relaxBusTarget_ne_error (db : DataDB) (currentStopId : String)
    (trip : Trip) (stEv : StopTime) (depTime : Int) (st : SearchState)
    (nextStopOnTrip : StopTime)
    (h1 : (db.stopsById stEv.stop_id).isSome)
    (h2 : (db.stopsById nextStopOnTrip.stop_id).isSome) :
    ∀ e : PErr,
      relaxBusTarget db currentStopId trip stEv depTime st nextStopOnTrip ≠
        .error e := by
  intro e
  simp only [relaxBusTarget]
  split_ifs with hseq himp
  · obtain ⟨fromS, hf⟩ := Option.isSome_iff_exists.mp h1
    obtain ⟨toS, ht⟩ := Option.isSome_iff_exists.mp h2
    rw [hf, ht]
    simp
  · simp
  · simp

theorem relaxDeparture_ne_error (db : DataDB) (serviceId currentStopId : String)
    (currentArrivalTime : Int) (st : SearchState) (stEv : StopTime)
    (htrip : (db.tripsByTripId stEv.trip_id).isSome)
    (hself : (db.stopsById stEv.stop_id).isSome)
    (htr : ∀ ev ∈ db.stopTimesByTrip stEv.trip_id,
      (db.stopsById ev.stop_id).isSome) :
    ∀ e : PErr, e ≠ .fuelOut →
      relaxDeparture db serviceId currentStopId currentArrivalTime st stEv ≠
        .error e := by
  intro e _
  simp only [relaxDeparture]
  obtain ⟨trip, htr'⟩ := Option.isSome_iff_exists.mp htrip
  rw [htr']
  dsimp only
  split_ifs with hcond
  · exact foldlM_ne_error _ e _ st (fun st' ev hev =>
      relaxBusTarget_ne_error db currentStopId trip stEv stEv.departure st' ev
        hself (htr ev hev) e)
  · simp

theorem relaxTransfer_ne_error (db : DataDB) (currentStopId : String)
    (currentArrivalTime : Int) (st : SearchState) (transfer : TransferRec)
    (h1 : (db.stopsById currentStopId).isSome)
    (h2 : (db.stopsById transfer.toStopId).isSome) :
    ∀ e : PErr,
      relaxTransfer db currentStopId currentArrivalTime st transfer ≠
        .error e := by
  intro e
  simp only [relaxTransfer]
  split_ifs with himp
  · obtain ⟨fromS, hf⟩ := Option.isSome_iff_exists.mp h1
    obtain ⟨toS, ht⟩ := Option.isSome_iff_exists.mp h2
    rw [hf, ht]
    simp
  · simp

/-- C8 (counterexample): a stop-time event whose stop identifier has no
known Stop does not yield `NoPathFound` — on a catalog whose trip
references the unknown stop `B`, the embedded query aborts with the
JavaScript `TypeError` (modelled `missingStop`) raised by
`getStop(...).stop_name`. -/
theorem claim_C8_counterexample : ¬ claimC8Prop := by
  intro h
  have := (h db8 (fun _ => []) degDist ⟨0, 0⟩ ⟨1/2, 1/2⟩ 0 exDate 50).1
  exact this rfl

/-- C8 (amended): the planner outcomes are data, but invariant violations
throw instead of mapping to `NoPathFound`; when every stop and trip
referenced by the per-stop index, the per-trip index and the transfer map
is known, the search loop itself raises neither `missingStop` nor
`missingTrip`. -/
theorem claim_C8_amended (db : DataDB) (tm : String → List TransferRec)
    (sid : String) (endIds : List String)
    (hev : ∀ id ev, ev ∈ db.stopTimesByStop id →
      (db.tripsByTripId ev.trip_id).isSome)
    (hevs : ∀ id ev, ev ∈ db.stopTimesByStop id →
      (db.stopsById ev.stop_id).isSome)
    (htr : ∀ tid ev, ev ∈ db.stopTimesByTrip tid →
      (db.stopsById ev.stop_id).isSome)
    (htm : ∀ id t, t ∈ tm id →
      (db.stopsById t.toStopId).isSome ∧ (db.stopsById id).isSome) :
    ∀ (fuel : Nat) (st : SearchState),
      searchLoop db tm sid endIds fuel st ≠ .error .missingStop ∧
      searchLoop db tm sid endIds fuel st ≠ .error .missingTrip := by
  intro fuel
  induction fuel with
  | zero => intro st; rw [searchLoop]; exact ⟨by simp, by simp⟩
  | succ fuel ih =>
    intro st
    rw [searchLoop]
    cases hpq : st.pq with
    | nil => exact ⟨by simp, by simp⟩
    | cons entry rest =>
      obtain ⟨currentLeg, currentArrivalTime⟩ := entry
      dsimp only
      split_ifs with hskip hend
      · exact ih _
      · exact ⟨by simp, by simp⟩
      · have hbus : ∀ e : PErr, e ≠ .fuelOut →
            (db.stopTimesByStop (currentLeg.toStopId.getD "")).foldlM
              (relaxDeparture db sid (currentLeg.toStopId.getD "")
                currentArrivalTime) { st with pq := rest } ≠ .error e := by
          intro e he
          exact foldlM_ne_error _ e _ _ (fun st' ev hevm =>
            relaxDeparture_ne_error db sid _ currentArrivalTime st' ev
              (hev _ ev hevm) (hevs _ ev hevm) (htr ev.trip_id) e he)
        cases hf1 : (db.stopTimesByStop (currentLeg.toStopId.getD "")).foldlM
            (relaxDeparture db sid (currentLeg.toStopId.getD "")
              currentArrivalTime) { st with pq := rest } with
        | error e1 =>
          constructor
          · intro hcontra
            simp only [hf1] at hcontra
            have : e1 = PErr.missingStop := by
              injection hcontra
            subst this
            exact hbus _ (by simp) hf1
          · intro hcontra
            simp only [hf1] at hcontra
            have : e1 = PErr.missingTrip := by
              injection hcontra
            subst this
            exact hbus _ (by simp) hf1
        | ok st2 =>
          simp only [hf1]
          have hwalk : ∀ e : PErr,
              (tm (currentLeg.toStopId.getD "")).foldlM
                (relaxTransfer db (currentLeg.toStopId.getD "")
                  currentArrivalTime) st2 ≠ .error e := by
            intro e
            exact foldlM_ne_error _ e _ _ (fun st' tr htrm =>
              relaxTransfer_ne_error db _ currentArrivalTime st' tr
                (htm _ tr htrm).2 (htm _ tr htrm).1 e)
          cases hf2 : (tm (currentLeg.toStopId.getD "")).foldlM
              (relaxTransfer db (currentLeg.toStopId.getD "")
                currentArrivalTime) st2 with
          | error e2 => exact absurd hf2 (hwalk e2)
          | ok st3 => exact ih st3

/-- The amended C8 guarantee on the planner-scenario catalog, whose
per-stop, per-trip and transfer indexes are all nonempty and whose
lookups all resolve: started from the seeded frontier at `A`, the loop
boards the trip at `A`, relaxes the transfers `A ↔ C`, and terminates by
dequeueing the end stop `B` — exercising every guarded dereference — and
raises no missing-stop or missing-trip error. -/
theorem claim_C8_amended_witness :
    (searchLoop db5 tm5 "S" ["B"] 50 wSeedState ≠ .error .missingStop ∧
     searchLoop db5 tm5 "S" ["B"] 50 wSeedState ≠ .error .missingTrip) ∧
    (match searchLoop db5 tm5 "S" ["B"] 50 wSeedState with
      | .ok (some (finalStopId, _)) => finalStopId
      | _ => "") = "B" := by
  refine ⟨claim_C8_amended db5 tm5 "S" ["B"] ?_ ?_ ?_ ?_ 50 wSeedState, rfl⟩
  · intro id ev hev
    simp only [db5] at hev
    split_ifs at hev
    · simp only [List.mem_singleton] at hev
      subst hev
      decide
    · simp only [List.mem_singleton] at hev
      subst hev
      decide
    · simp at hev
  · intro id ev hev
    simp only [db5] at hev
    split_ifs at hev
    · simp only [List.mem_singleton] at hev
      subst hev
      decide
    · simp only [List.mem_singleton] at hev
      subst hev
      decide
    · simp at hev
  · intro tid ev hev
    simp only [db5] at hev
    split_ifs at hev
    · simp only [List.mem_cons, List.not_mem_nil, or_false] at hev
      rcases hev with rfl | rfl <;> decide
    · simp at hev
  · intro id t ht
    simp only [tm5] at ht
    split_ifs at ht with h1 h2
    · subst h1
      simp only [List.mem_singleton] at ht
      subst ht
      exact ⟨by decide, by decide⟩
    · subst h2
      simp only [List.mem_singleton] at ht
      subst ht
      exact ⟨by decide, by decide⟩
    · simp at ht

/-- C5: a successful itinerary can violate the non-decreasing leg chain.
On the planner-scenario catalog (departure at midnight, a start stop at
distance 0, hence a provisional label of 0 that JavaScript `|| Infinity`
treats as missing), the query returns status OK with legs whose times are
`(0,100), (100,200), (0,300), (300,300)`: the walk reaching `A` at second
200 is followed by a bus leg that departed `A` at second 0. -/
theorem claim_C5_code_divergence :
    (match findItinerary db5 tm5 degDist ⟨0, 0⟩ ⟨1/10, 0⟩ 0 exDate 50 with
      | .ok (.ok legs _) => legChainOk legs
      | _ => true) = false := by
  rfl

theorem argminAux_spec (f : ℚ × ℚ → ℚ) :
    ∀ (tl : List (ℚ × ℚ)) (bi k : Nat) (bv : ℚ),
      (argminAux f (bi, bv) k tl = (bi, bv) ∨
        ∃ j, j < tl.length ∧
          argminAux f (bi, bv) k tl = (k + j, f (tl.getD j (0, 0)))) ∧
      (argminAux f (bi, bv) k tl).2 ≤ bv ∧
      (∀ j, j < tl.length →
        (argminAux f (bi, bv) k tl).2 ≤ f (tl.getD j (0, 0))) := by
  intro tl
  induction tl with
  | nil =>
    intro bi k bv
    refine ⟨Or.inl rfl, le_refl _, ?_⟩
    intro j hj
    simp at hj
  | cons x tl' ih =>
    intro bi k bv
    rw [argminAux]
    dsimp only
    by_cases hx : f x < bv
    · rw [if_pos hx]
      obtain ⟨ih1, ih2, ih3⟩ := ih k (k + 1) (f x)
      refine ⟨?_, ih2.trans (le_of_lt hx), ?_⟩
      · rcases ih1 with h | ⟨j, hj, hje⟩
        · right
          refine ⟨0, by simp, ?_⟩
          rw [h]
          simp
        · right
          refine ⟨j + 1, by simp [hj], ?_⟩
          rw [hje]
          have : k + 1 + j = k + (j + 1) := by omega
          rw [this]
          simp [List.getD_cons_succ]
      · intro j hj
        cases j with
        | zero => simpa using ih2
        | succ j' =>
          have := ih3 j' (by simp at hj; omega)
          simpa using this
    · rw [if_neg hx]
      obtain ⟨ih1, ih2, ih3⟩ := ih bi (k + 1) bv
      refine ⟨?_, ih2, ?_⟩
      · rcases ih1 with h | ⟨j, hj, hje⟩
        · exact Or.inl h
        · right
          refine ⟨j + 1, by simp [hj], ?_⟩
          rw [hje]
          have : k + 1 + j = k + (j + 1) := by omega
          rw [this]
          simp [List.getD_cons_succ]
      · intro j hj
        cases j with
        | zero =>
          have hbv : bv ≤ f x := not_lt.mp hx
          simpa using ih2.trans hbv
        | succ j' =>
          have := ih3 j' (by simp at hj; omega)
          simpa using this

theorem argminIdx_spec (f : ℚ × ℚ → ℚ) (cs : List (ℚ × ℚ)) (i : Nat)
    (h : argminIdx f cs = some i) :
    i < cs.length ∧
    ∀ j, j < cs.length → f (cs.getD i (0, 0)) ≤ f (cs.getD j (0, 0)) := by
  cases cs with
  | nil => simp [argminIdx] at h
  | cons x tl =>
    rw [argminIdx] at h
    have hi : i = (argminAux f (0, f x) 1 tl).1 := (Option.some.inj h).symm
    obtain ⟨h1, h2, h3⟩ := argminAux_spec f tl 0 1 (f x)
    have hval : (argminAux f (0, f x) 1 tl).2 =
        f ((x :: tl).getD (argminAux f (0, f x) 1 tl).1 (0, 0)) := by
      rcases h1 with h' | ⟨j, hj, h'⟩
      · rw [h']
        simp
      · rw [h']
        rw [Nat.add_comm 1 j]
        simp [List.getD_cons_succ, List.getElem?_cons_succ]
    constructor
    · rw [hi]
      rcases h1 with h' | ⟨j, hj, h'⟩
      · rw [h']; simp
      · rw [h']; simp; omega
    · intro j hj
      rw [hi, ← hval]
      cases j with
      | zero => simpa using h2
      | succ j' => simpa using h3 j' (by simp at hj; omega)

theorem degDist_nonneg (a b c d : ℚ) : 0 ≤ degDist a b c d :=
  mul_nonneg (by norm_num) ((abs_nonneg _).trans (le_max_left _ _))

theorem degNearest_valid (cs : List (ℚ × ℚ)) (la lo : ℚ) (i : Nat)
    (h : degNearest cs la lo = some i) : i < cs.length :=
  (argminIdx_spec _ cs i h).1

theorem degNearest_total (cs : List (ℚ × ℚ)) (la lo : ℚ) (h : cs ≠ []) :
    degNearest cs la lo ≠ none := by
  cases cs with
  | nil => exact absurd rfl h
  | cons x tl => simp [degNearest, argminIdx]

theorem degNearest_min (cs : List (ℚ × ℚ)) (la lo : ℚ) (i : Nat)
    (h : degNearest cs la lo = some i) :
    ∀ j, j < cs.length →
      degDist la lo (cs.getD i (0, 0)).2 (cs.getD i (0, 0)).1 ≤
      degDist la lo (cs.getD j (0, 0)).2 (cs.getD j (0, 0)).1 :=
  (argminIdx_spec _ cs i h).2

/-- C7 (counterexample): with a polyline whose vertices all lie half a
degree of latitude away from both stops, the arc-length interpolation at
progress 0 returns the nearest polyline vertex — tens of kilometres from
the from-stop — not the stop coordinate within one metre. -/
theorem claim_C7_counterexample : ¬ claimC7Prop := by
  intro h
  have hres := (h degDist degNearest degDist_nonneg
    (fun cs la lo i hi => degNearest_valid cs la lo i hi)
    (fun cs la lo hcs => degNearest_total cs la lo hcs)
    (fun cs la lo i hi j hj => degNearest_min cs la lo i hi j hj)
    (some geo7) stopF7 stopT7).1
  have hval : calculatePosition degDist degNearest (some geo7) stopF7 stopT7 0 =
      (1/2, 0) := by rfl
  rw [hval] at hres
  have h1 := hres.1
  norm_num [stopF7] at h1
  have habs : |(1 : ℚ)/2| = 1/2 := abs_of_nonneg (by norm_num)
  rw [habs] at h1
  norm_num at h1

theorem totalDistOf_nonneg (dist4 : ℚ → ℚ → ℚ → ℚ → ℚ)
    (hnn : ∀ a b c d, 0 ≤ dist4 a b c d) :
    ∀ l : List (ℚ × ℚ), 0 ≤ totalDistOf dist4 l := by
  intro l
  induction l with
  | nil => rw [totalDistOf]
  | cons p tl ih =>
    cases tl with
    | nil => rw [totalDistOf]
    | cons q tl' =>
      rw [totalDistOf]
      exact add_nonneg (hnn _ _ _ _) ih

theorem totalDistOf_pos (dist4 : ℚ → ℚ → ℚ → ℚ → ℚ)
    (hnn : ∀ a b c d, 0 ≤ dist4 a b c d) (p q : ℚ × ℚ) (tl : List (ℚ × ℚ))
    (hchain : List.Chain' (fun x y => 0 < dist4 x.2 x.1 y.2 y.1) (p :: q :: tl)) :
    0 < totalDistOf dist4 (p :: q :: tl) := by
  rw [totalDistOf]
  have hpq := (List.chain'_cons.mp hchain).1
  have := totalDistOf_nonneg dist4 hnn (q :: tl)
  linarith

theorem interpLoop_at_zero (dist4 : ℚ → ℚ → ℚ → ℚ → ℚ) (p q : ℚ × ℚ)
    (tl : List (ℚ × ℚ)) (hd : 0 ≤ dist4 p.2 p.1 q.2 q.1) :
    interpLoop dist4 0 p 0 (q :: tl) = (p.2, p.1) := by
  rw [interpLoop]
  dsimp only
  rw [if_pos ⟨le_refl 0, by linarith⟩]
  split_ifs with hseg
  · simp
  · simp

theorem interpLoop_at_total (dist4 : ℚ → ℚ → ℚ → ℚ → ℚ)
    (hnn : ∀ a b c d, 0 ≤ dist4 a b c d) :
    ∀ (tl : List (ℚ × ℚ)) (p : ℚ × ℚ) (dcur target : ℚ),
      target = dcur + totalDistOf dist4 (p :: tl) → tl ≠ [] →
      List.Chain' (fun x y => 0 < dist4 x.2 x.1 y.2 y.1) (p :: tl) →
      interpLoop dist4 target p dcur tl =
        ((tl.getLastD p).2, (tl.getLastD p).1) := by
  intro tl
  induction tl with
  | nil => intro p dcur target _ h; exact absurd rfl h
  | cons q tl' ih =>
    intro p dcur target htarget _ hchain
    have hpq : 0 < dist4 p.2 p.1 q.2 q.1 := (List.chain'_cons.mp hchain).1
    cases tl' with
    | nil =>
      rw [totalDistOf, totalDistOf] at htarget
      rw [interpLoop]
      dsimp only
      have htv : target = dcur + dist4 p.2 p.1 q.2 q.1 := by
        rw [htarget]; ring
      rw [if_pos ⟨by linarith, by linarith⟩]
      have hseg : dcur + dist4 p.2 p.1 q.2 q.1 - dcur > 0 := by linarith
      rw [if_pos hseg]
      have hsp : (target - dcur) / (dcur + dist4 p.2 p.1 q.2 q.1 - dcur) = 1 := by
        rw [htv]
        field_simp
      rw [hsp]
      simp [List.getLastD]
    | cons q' tl'' =>
      have hT : 0 < totalDistOf dist4 (q :: q' :: tl'') :=
        totalDistOf_pos dist4 hnn q q' tl'' hchain.tail
      rw [interpLoop]
      dsimp only
      rw [if_neg (by
        intro hcontra
        have h2 := hcontra.2
        rw [htarget, totalDistOf] at h2
        linarith)]
      rw [ih q (dcur + dist4 p.2 p.1 q.2 q.1) target
        (by rw [htarget, totalDistOf]; ring) (by simp) hchain.tail]
      conv_rhs => rw [List.getLastD_cons]

theorem pathSliceOf_spec (cs : List (ℚ × ℚ)) (fi ti : Nat)
    (hfi : fi < cs.length) (hti : ti < cs.length) (hne : fi ≠ ti) :
    2 ≤ (pathSliceOf cs fi ti).length ∧
    (pathSliceOf cs fi ti).head? = some (cs.getD fi (0, 0)) ∧
    (pathSliceOf cs fi ti).getLast? = some (cs.getD ti (0, 0)) := by
  unfold pathSliceOf
  by_cases hlt : fi < ti
  · rw [if_pos hlt]
    have hlen : ((cs.drop fi).take (ti + 1 - fi)).length = ti + 1 - fi := by
      rw [List.length_take, List.length_drop]
      omega
    refine ⟨by omega, ?_, ?_⟩
    · rw [List.head?_eq_getElem?]
      rw [List.getElem?_take, if_pos (by omega), List.getElem?_drop]
      rw [List.getElem?_eq_getElem (by omega)]
      rw [List.getD_eq_getElem cs (0, 0) hfi]
      simp
    · rw [List.getLast?_eq_getElem?, hlen]
      rw [List.getElem?_take, if_pos (by omega), List.getElem?_drop]
      have hidx : fi + (ti + 1 - fi - 1) = ti := by omega
      rw [hidx]
      rw [List.getElem?_eq_getElem hti]
      rw [List.getD_eq_getElem cs (0, 0) hti]
  · rw [if_neg hlt]
    have hgt : ti < fi := by omega
    have hlen : ((cs.drop ti).take (fi + 1 - ti)).length = fi + 1 - ti := by
      rw [List.length_take, List.length_drop]
      omega
    refine ⟨by rw [List.length_reverse, hlen]; omega, ?_, ?_⟩
    · rw [List.head?_reverse]
      rw [List.getLast?_eq_getElem?, hlen]
      rw [List.getElem?_take, if_pos (by omega), List.getElem?_drop]
      have hidx : ti + (fi + 1 - ti - 1) = fi := by omega
      rw [hidx]
      rw [List.getElem?_eq_getElem hfi]
      rw [List.getD_eq_getElem cs (0, 0) hfi]
    · rw [List.getLast?_reverse]
      rw [List.head?_eq_getElem?]
      rw [List.getElem?_take, if_pos (by omega), List.getElem?_drop]
      rw [List.getElem?_eq_getElem (by omega)]
      rw [List.getD_eq_getElem cs (0, 0) hti]
      simp

/-- C7 (amended): in the linear fallback the interpolated position at
progress 0/1 equals the from/to stop coordinate exactly; in geometry mode
(nearest indices defined, distinct and in range, non-degenerate slice) it
equals the polyline vertex nearest the from/to stop — so the one-metre
tolerance of the original claim holds only when those vertices lie within
one metre of the stops. -/
theorem claim_C7_amended (dist4 : ℚ → ℚ → ℚ → ℚ → ℚ)
    (nearest : List (ℚ × ℚ) → ℚ → ℚ → Option Nat) (fromStop toStop : Stop) :
    ((calculatePosition dist4 nearest none fromStop toStop 0 =
        (fromStop.stop_lat, fromStop.stop_lon)) ∧
      (calculatePosition dist4 nearest none fromStop toStop 1 =
        (toStop.stop_lat, toStop.stop_lon))) ∧
    ((∀ a b c d, 0 ≤ dist4 a b c d) → ∀ (cs : List (ℚ × ℚ)) (fi ti : Nat),
      nearest cs fromStop.stop_lat fromStop.stop_lon = some fi →
      nearest cs toStop.stop_lat toStop.stop_lon = some ti →
      fi < cs.length → ti < cs.length → fi ≠ ti →
      List.Chain' (fun x y => 0 < dist4 x.2 x.1 y.2 y.1)
        (pathSliceOf cs fi ti) →
      calculatePosition dist4 nearest (some cs) fromStop toStop 0 =
        ((cs.getD fi (0, 0)).2, (cs.getD fi (0, 0)).1) ∧
      calculatePosition dist4 nearest (some cs) fromStop toStop 1 =
        ((cs.getD ti (0, 0)).2, (cs.getD ti (0, 0)).1)) := by
  constructor
  · constructor
    · simp only [calculatePosition]
      rw [Prod.mk.injEq]
      constructor <;> ring
    · simp only [calculatePosition]
      rw [Prod.mk.injEq]
      constructor <;> ring
  · intro hnn cs fi ti hf ht hfi hti hne hchain
    obtain ⟨hlen2, hhead, hlast⟩ := pathSliceOf_spec cs fi ti hfi hti hne
    cases hsl : pathSliceOf cs fi ti with
    | nil => rw [hsl] at hlen2; simp at hlen2
    | cons p rest =>
      cases rest with
      | nil => rw [hsl] at hlen2; simp at hlen2
      | cons q tl =>
        rw [hsl] at hhead hlast hchain
        have hp : p = cs.getD fi (0, 0) := by
          rw [List.head?_cons] at hhead
          exact Option.some.inj hhead
        have hgl : (q :: tl).getLast? = some (cs.getD ti (0, 0)) := by
          rw [← List.getLast?_cons_cons (a := p)]
          exact hlast
        have hlastD : (q :: tl).getLastD p = cs.getD ti (0, 0) := by
          rw [List.getLastD_eq_getLast?, hgl]
          rfl
        have htotal : 0 < totalDistOf dist4 (p :: q :: tl) :=
          totalDistOf_pos dist4 hnn p q tl hchain
        have hposlen : 0 < cs.length := Nat.lt_of_le_of_lt (Nat.zero_le fi) hfi
        have hstep : ∀ pr : ℚ,
            interpolateAlongRoute dist4 nearest cs fromStop.stop_lat
              fromStop.stop_lon toStop.stop_lat toStop.stop_lon pr =
            some (interpLoop dist4 (totalDistOf dist4 (p :: q :: tl) * pr)
              p 0 (q :: tl)) := by
          intro pr
          unfold interpolateAlongRoute
          rw [hf, ht]
          dsimp only
          rw [if_neg hne, hsl]
          dsimp only
          rw [if_neg (ne_of_gt htotal)]
        constructor
        · have hinterp : interpolateAlongRoute dist4 nearest cs
              fromStop.stop_lat fromStop.stop_lon toStop.stop_lat
              toStop.stop_lon 0 = some (p.2, p.1) := by
            rw [hstep 0, mul_zero,
              interpLoop_at_zero dist4 p q tl
                (le_of_lt (List.chain'_cons.mp hchain).1)]
          simp only [calculatePosition]
          rw [if_pos hposlen, hinterp, hp]
        · have hinterp : interpolateAlongRoute dist4 nearest cs
              fromStop.stop_lat fromStop.stop_lon toStop.stop_lat
              toStop.stop_lon 1 = some ((cs.getD ti (0, 0)).2,
                (cs.getD ti (0, 0)).1) := by
            rw [hstep 1,
              interpLoop_at_total dist4 hnn (q :: tl) p 0
                (totalDistOf dist4 (p :: q :: tl) * 1) (by ring) (by simp)
                hchain, hlastD]
          simp only [calculatePosition]
          rw [if_pos hposlen, hinterp]

/-- On the concrete polyline scenario: the fallback returns the from-stop
coordinate exactly, and geometry mode returns the vertex nearest the from
stop.  Witnesses C7's amended statement. -/
theorem claim_C7_amended_witness :
    (calculatePosition degDist degNearest none stopF7 stopT7 0 =
      (stopF7.stop_lat, stopF7.stop_lon)) ∧
    (calculatePosition degDist degNearest (some geo7) stopF7 stopT7 0 =
      ((geo7.getD 0 (0, 0)).2, (geo7.getD 0 (0, 0)).1)) := by
  have h := claim_C7_amended degDist degNearest stopF7 stopT7
  refine ⟨h.1.1, ?_⟩
  refine (h.2 degDist_nonneg geo7 0 1 rfl rfl (by decide) (by decide)
    (by decide) ?_).1
  show List.Chain' _ (pathSliceOf geo7 0 1)
  have hsl : pathSliceOf geo7 0 1 = geo7 := rfl
  rw [hsl]
  simp only [geo7, List.chain'_cons, List.chain'_singleton, and_true]
  norm_num [degDist]

end Pathfinding
